import Mathlib

/-!
# Language-agnostic code translator (`src/Translator.h`)

A shallow embedding of `CodeTranslator`: the language-profile registry, the
line/whitespace lexer, the token classifier, the tree builder and the emitter,
followed by theorems about them.

Modelling conventions.
* `std::string` is a list of characters (`Str`).
* `std::unordered_map` is an association list; enumeration (`for entry : map`)
  walks the list, `at` is a lookup that fails with `out_of_range`, and
  `operator[]` inserts a default value for an absent key.
* C++ exceptions are the `error` side of `Except Exn`.
-/

namespace Translator

/-- The model of `std::string`. -/
abbrev Str := List Char

/-- Token type enumeration (`enum class TokenType`). -/
inductive TokenType where
  | KEYWORD
  | IDENTIFIER
  | OPERATOR
  | DELIMITER
  | LITERAL
  | COMMENT
  | WHITESPACE
  | UNKNOWN
  | START_BLOCK
  | END_BLOCK
  | START_FUNCTION
  | END_FUNCTION
  | CLASS
  | INHERITANCE
deriving DecidableEq, Repr

/-- Token structure (`struct Token`). -/
structure Token where
  type : TokenType
  value : Str
deriving DecidableEq, Repr

/-- The failures of the program: `std::out_of_range` (thrown by
`unordered_map::at` on an absent key and by `substr` past the end), and the
step `current = current->parent` of `buildAST`, which follows a link that
`ASTNode` does not declare and that no statement ever sets. -/
inductive Exn where
  | out_of_range
  | bad_parent
deriving DecidableEq, Repr

/-- What `ASTNode::type` holds. The source stores a token kind in it for leaf
nodes (`push_back({token.type, token.value})`), stores the token text in it for
scope nodes (`newBlock.type = token.value`), and compares it with token kinds in
`translateAST`; a text never equals a kind. -/
inductive NodeType where
  | kind (t : TokenType)
  | text (s : Str)
deriving DecidableEq, Repr

/-- Abstract syntax tree node (`struct ASTNode`). -/
inductive ASTNode where
  | mk (type : NodeType) (value : Str) (children : List ASTNode)
deriving Repr

/-- The `type` member of a node. -/
def ASTNode.type : ASTNode → NodeType
  | .mk t _ _ => t

/-- The `value` member of a node. -/
def ASTNode.value : ASTNode → Str
  | .mk _ v _ => v

/-- The `children` member of a node. -/
def ASTNode.children : ASTNode → List ASTNode
  | .mk _ _ cs => cs

deriving instance DecidableEq for Except

/-- A language profile: `unordered_map<string, string>` from role to symbol. -/
abbrev Profile := List (Str × Str)

/-- The registry `languageMappings`: language name to profile. -/
abbrev Registry := List (Str × Profile)

/-- The lookup `find` of an association list: the first entry with the key. -/
def mapFind {β : Type} : List (Str × β) → Str → Option β
  | [], _ => none
  | (k, v) :: rest, key => if k = key then some v else mapFind rest key

/-- The call `m.at(key)`: the value, or `std::out_of_range`. -/
def mapAt (m : Profile) (key : Str) : Except Exn Str :=
  match mapFind m key with
  | some v => .ok v
  | none => .error .out_of_range

/-- The call `languageMappings[key]`: the stored profile, and when the key is
absent a new empty profile is inserted under it and returned. -/
def mapIndex (r : Registry) (key : Str) : Profile × Registry :=
  match mapFind r key with
  | some p => (p, r)
  | none => ([], r ++ [(key, [])])

/-- The built-in profile `languageMappings["python"]`. -/
def pythonProfile : Profile :=
  [ ("start_block".toList, ":".toList),
    ("end_block".toList, "".toList),
    ("end_statement".toList, "".toList),
    ("function".toList, "def".toList),
    ("class".toList, "class".toList),
    ("inheritance".toList, "(".toList),
    ("variable_type_int".toList, "int".toList),
    ("variable_type_double".toList, "float".toList),
    ("single_line_comment".toList, "#".toList),
    ("multi_line_comment_start".toList, "'''".toList),
    ("multi_line_comment_end".toList, "'''".toList) ]

/-- The built-in profile `languageMappings["cpp"]`. -/
def cppProfile : Profile :=
  [ ("start_block".toList, "\x7b".toList),
    ("end_block".toList, "\x7d".toList),
    ("end_statement".toList, ";".toList),
    ("function".toList, "".toList),
    ("class".toList, "class".toList),
    ("inheritance".toList, ":".toList),
    ("variable_type_int".toList, "int".toList),
    ("variable_type_double".toList, "double".toList),
    ("single_line_comment".toList, "//".toList),
    ("multi_line_comment_start".toList, "/*".toList),
    ("multi_line_comment_end".toList, "*/".toList) ]

/-- The registry built by the constructor `CodeTranslator()`. -/
def CodeTranslator : Registry :=
  [ ("python".toList, pythonProfile), ("cpp".toList, cppProfile) ]

/-! ## Character classes of the "C" locale -/

/-- The test `std::isalpha`. -/
def isalpha (c : Char) : Bool :=
  (65 ≤ c.toNat && c.toNat ≤ 90) || (97 ≤ c.toNat && c.toNat ≤ 122)

/-- The test `std::isdigit`. -/
def isdigit (c : Char) : Bool :=
  48 ≤ c.toNat && c.toNat ≤ 57

/-- The test `::isspace`: space, `\t`, `\n`, `\v`, `\f`, `\r`. -/
def isspace (c : Char) : Bool :=
  c.toNat = 32 || (9 ≤ c.toNat && c.toNat ≤ 13)

/-- The expression `tokenValue[0]`: the first character, and the terminating
null character for the empty string. -/
def front (s : Str) : Char :=
  s.headD (Char.ofNat 0)

/-! ## Classifier predicates -/

/-- Source `isKeyword`: the lexeme equals the symbol of some entry. -/
def isKeyword (tokenValue : Str) (sourceMapping : Profile) : Bool :=
  sourceMapping.any (fun entry => tokenValue = entry.2)

/-- Source `isIdentifier`. -/
def isIdentifier (tokenValue : Str) : Bool :=
  isalpha (front tokenValue) || front tokenValue = '_'

/-- The static table `operators`. -/
def operators : List Str :=
  ["+".toList, "-".toList, "*".toList, "/".toList, "=".toList, "==".toList, "!=".toList]

/-- Source `isOperator`. -/
def isOperator (tokenValue : Str) : Bool :=
  operators.contains tokenValue

/-- The static table `delimiters`. -/
def delimiters : List Str :=
  [",".toList, ";".toList, "(".toList, ")".toList, "\x7b".toList, "\x7d".toList]

/-- Source `isDelimiter`. -/
def isDelimiter (tokenValue : Str) : Bool :=
  delimiters.contains tokenValue

/-- Source `isLiteral`; `back()` is only evaluated when the first character is a
double quote, hence on a non-empty string. -/
def isLiteral (tokenValue : Str) : Bool :=
  isdigit (front tokenValue) ||
    (front tokenValue = '"' && tokenValue.getLast? = some '"')

/-- Source `isComment`: some entry's symbol is a prefix of the lexeme
(`substr(0, n)` keeps at most `n` characters). -/
def isComment (tokenValue : Str) (sourceMapping : Profile) : Bool :=
  sourceMapping.any (fun entry => tokenValue.take entry.2.length = entry.2)

/-- Source `isWhitespace`. -/
def isWhitespace (tokenValue : Str) : Bool :=
  tokenValue.all isspace

/-- Source `isBlockStart`. -/
def isBlockStart (tokenValue : Str) : Bool :=
  tokenValue = "\x7b".toList

/-- Source `isBlockEnd`. -/
def isBlockEnd (tokenValue : Str) : Bool :=
  tokenValue = "\x7d".toList

/-- Source `isFunctionStart`. -/
def isFunctionStart (tokenValue : Str) : Bool :=
  tokenValue = "(".toList

/-- Source `isFunctionEnd`. -/
def isFunctionEnd (tokenValue : Str) : Bool :=
  tokenValue = ")".toList

/-- Source `isClassDeclaration`: the same loop as `isKeyword`. -/
def isClassDeclaration (tokenValue : Str) (sourceMapping : Profile) : Bool :=
  sourceMapping.any (fun entry => tokenValue = entry.2)

/-- Source `isInheritance`: compares with `sourceMapping.at("inheritance")`. -/
def isInheritance (tokenValue : Str) (sourceMapping : Profile) : Except Exn Bool :=
  match mapAt sourceMapping "inheritance".toList with
  | .ok v => .ok (decide (tokenValue = v))
  | .error e => .error e

/-- Source `getTokenType`: the `if`/`else if` chain, tested top to bottom. -/
def getTokenType (tokenValue : Str) (sourceMapping : Profile) : Except Exn TokenType :=
  if isKeyword tokenValue sourceMapping then .ok .KEYWORD
  else if isIdentifier tokenValue then .ok .IDENTIFIER
  else if isOperator tokenValue then .ok .OPERATOR
  else if isDelimiter tokenValue then .ok .DELIMITER
  else if isLiteral tokenValue then .ok .LITERAL
  else if isComment tokenValue sourceMapping then .ok .COMMENT
  else if isWhitespace tokenValue then .ok .WHITESPACE
  else if isBlockStart tokenValue then .ok .START_BLOCK
  else if isBlockEnd tokenValue then .ok .END_BLOCK
  else if isFunctionStart tokenValue then .ok .START_FUNCTION
  else if isFunctionEnd tokenValue then .ok .END_FUNCTION
  else if isClassDeclaration tokenValue sourceMapping then .ok .CLASS
  else
    match isInheritance tokenValue sourceMapping with
    | .ok true => .ok .INHERITANCE
    | .ok false => .ok .UNKNOWN
    | .error e => .error e

/-! ## Lexer -/

/-- The loop `while (std::getline(codeStream, line))`: the lines of the text,
`cur` being the characters of the current line read so far (latest first). A
final line without a line break is delivered when it is not empty. -/
def getlineLoop : Str → Str → List Str
  | [], cur => if cur = [] then [] else [cur.reverse]
  | c :: cs, cur =>
    if c = '\n' then cur.reverse :: getlineLoop cs [] else getlineLoop cs (c :: cur)

/-- The loop `while (lineStream >> tokenValue)`: skip whitespace, then gather
characters up to the next whitespace or the end; `cur` is the lexeme read so
far (latest first). -/
def extractLoop : Str → Str → List Str
  | [], cur => if cur = [] then [] else [cur.reverse]
  | c :: cs, cur =>
    if isspace c then
      (if cur = [] then extractLoop cs [] else cur.reverse :: extractLoop cs [])
    else extractLoop cs (c :: cur)

/-- The inner loop of `tokenize` over the lexemes of one line; `tokens` is the
vector built so far. -/
def tokenizeLine (sourceMapping : Profile) : List Str → List Token → Except Exn (List Token)
  | [], tokens => .ok tokens
  | tokenValue :: rest, tokens =>
    match getTokenType tokenValue sourceMapping with
    | .error e => .error e
    | .ok tokenType =>
      if tokenType = .WHITESPACE then tokenizeLine sourceMapping rest tokens
      else tokenizeLine sourceMapping rest (tokens ++ [⟨tokenType, tokenValue⟩])

/-- The outer loop of `tokenize` over the lines. -/
def tokenizeLines (sourceMapping : Profile) : List Str → List Token → Except Exn (List Token)
  | [], tokens => .ok tokens
  | line :: rest, tokens =>
    match tokenizeLine sourceMapping (extractLoop line []) tokens with
    | .error e => .error e
    | .ok tokens' => tokenizeLines sourceMapping rest tokens'

/-- Source `tokenize`. -/
def tokenize (code : Str) (sourceMapping : Profile) : Except Exn (List Token) :=
  tokenizeLines sourceMapping (getlineLoop code []) []

/-! ## Tree builder -/

/-- The test `type == START_BLOCK || type == END_BLOCK || type == START_FUNCTION
|| type == END_FUNCTION || type == CLASS` on a token kind. -/
def isScopeKind (t : TokenType) : Bool :=
  t = .START_BLOCK || t = .END_BLOCK || t = .START_FUNCTION || t = .END_FUNCTION || t = .CLASS

/-- The test `type == START_BLOCK || type == START_FUNCTION || type == CLASS`. -/
def isOpenKind (t : TokenType) : Bool :=
  t = .START_BLOCK || t = .START_FUNCTION || t = .CLASS

/-- The statement `n.children.push_back(c)`. -/
def ASTNode.push_back (n c : ASTNode) : ASTNode :=
  .mk n.type n.value (n.children ++ [c])

/-- The default-constructed node (`ASTNode root;`, `ASTNode newBlock;`). -/
def ASTNode.empty : ASTNode :=
  .mk (.text []) [] []

/-- The tree seen from the root when the first argument is the node being
filled and the second lists its enclosing nodes, innermost first: each of them
gets the node below it as its last child. -/
def closeAll : ASTNode → List ASTNode → ASTNode
  | current, [] => current
  | current, parent :: outer => closeAll (parent.push_back current) outer

/-- The loop of `buildAST`. `current` is the node `*current`; `enclosing` are the
nodes above it, each still lacking its last child (the node below it). -/
def buildASTLoop : List Token → ASTNode → List ASTNode → Except Exn ASTNode
  | [], current, enclosing => .ok (closeAll current enclosing)
  | token :: rest, current, enclosing =>
    if isScopeKind token.type then
      if isOpenKind token.type then
        buildASTLoop rest (.mk (.text token.value) [] []) (current :: enclosing)
      else .error .bad_parent
    else
      buildASTLoop rest (current.push_back (.mk (.kind token.type) token.value [])) enclosing

/-- Source `buildAST`. -/
def buildAST (tokens : List Token) : Except Exn ASTNode :=
  buildASTLoop tokens ASTNode.empty []

/-! ## Emitter -/

/-- The call `s.substr(pos)`: the tail from `pos`, or `std::out_of_range` when
`pos` exceeds the length. -/
def substrFrom (s : Str) (pos : Nat) : Except Exn Str :=
  if pos ≤ s.length then .ok (s.drop pos) else .error .out_of_range

/-- Source `translateComment`. -/
def translateComment (comment : Str) (targetMapping : Profile) : Except Exn Str := do
  let mlStart ← mapAt targetMapping "multi_line_comment_start".toList
  if comment.take mlStart.length = mlStart then
    let commentStart ← mapAt targetMapping "comment_start".toList
    let body ← substrFrom comment commentStart.length
    let mlEnd ← mapAt targetMapping "multi_line_comment_end".toList
    pure (mlStart ++ " ".toList ++ body ++ " ".toList ++ mlEnd)
  else
    let commentStart ← mapAt targetMapping "comment_start".toList
    let body ← substrFrom comment commentStart.length
    pure (commentStart ++ " ".toList ++ body)

mutual
/-- The body of the loop of `translateAST` for one child `node`: the text
appended to `translatedCode`. -/
def translateNode : ASTNode → Profile → Except Exn Str
  | .mk type value children, targetMapping =>
    match type with
    | .kind .START_BLOCK => do
      let s ← mapAt targetMapping "start_block".toList
      let inner ← translateNodes children targetMapping
      pure (s ++ "\n".toList ++ inner)
    | .kind .END_BLOCK => do
      let s ← mapAt targetMapping "end_block".toList
      let inner ← translateNodes children targetMapping
      pure (s ++ "\n".toList ++ inner)
    | .kind .START_FUNCTION => do
      let f ← mapAt targetMapping "function".toList
      let args ← translateNodes children targetMapping
      let s ← mapAt targetMapping "start_function".toList
      let inner ← translateNodes children targetMapping
      pure (f ++ " ".toList ++ args ++ s ++ " ".toList ++ inner)
    | .kind .END_FUNCTION => do
      let s ← mapAt targetMapping "end_function".toList
      let inner ← translateNodes children targetMapping
      pure (s ++ " ".toList ++ inner)
    | .kind .CLASS => do
      let c ← mapAt targetMapping "class".toList
      let members ← translateNodes children targetMapping
      let inner ← translateNodes children targetMapping
      pure (c ++ " ".toList ++ members ++ " ".toList ++ inner)
    | .kind .COMMENT => translateComment value targetMapping
    | .kind .INHERITANCE => do
      let s ← mapAt targetMapping "inheritance".toList
      pure (s ++ " ".toList)
    | _ => pure (value ++ " ".toList)

/-- The loop `for (const ASTNode& node : root.children)` of `translateAST`. -/
def translateNodes : List ASTNode → Profile → Except Exn Str
  | [], _ => .ok []
  | node :: rest, targetMapping => do
    let piece ← translateNode node targetMapping
    let more ← translateNodes rest targetMapping
    pure (piece ++ more)
end

/-- Source `translateAST`: the emission of the children of `root`. -/
def translateAST (root : ASTNode) (targetMapping : Profile) : Except Exn Str :=
  translateNodes root.children targetMapping

/-! ## Entry point -/

/-- Source `translateCodeInternal`. -/
def translateCodeInternal (code : Str) (sourceMapping targetMapping : Profile) :
    Except Exn Str := do
  let tokens ← tokenize code sourceMapping
  let root ← buildAST tokens
  translateAST root targetMapping

/-- Source `translateCode`: the returned text (or the exception thrown) and the
registry after the call. -/
def translateCode (languageMappings : Registry) (code sourceLanguage targetLanguage : Str) :
    Except Exn Str × Registry :=
  let (sourceMapping, r1) := mapIndex languageMappings sourceLanguage
  let (targetMapping, r2) := mapIndex r1 targetLanguage
  if sourceMapping.isEmpty || targetMapping.isEmpty then
    (.ok "Unsupported language".toList, r2)
  else
    (translateCodeInternal code sourceMapping targetMapping, r2)

/-! ## Specification-side definitions -/

/-- The Keyword predicate in the specification's words: the lexeme equals some
role value of the profile. -/
def specKeyword (t : Str) (p : Profile) : Bool :=
  decide (t ∈ p.map Prod.snd)

/-- The Identifier predicate in the specification's words: the first character
is alphabetic or an underscore. -/
def specIdentifier (t : Str) : Bool :=
  match t with
  | [] => false
  | c :: _ => isalpha c || c = '_'

/-- The Operator predicate in the specification's words. -/
def specOperator (t : Str) : Bool :=
  decide (t ∈ ["+".toList, "-".toList, "*".toList, "/".toList, "=".toList,
    "==".toList, "!=".toList])

/-- The Delimiter predicate in the specification's words. -/
def specDelimiter (t : Str) : Bool :=
  decide (t ∈ [",".toList, ";".toList, "(".toList, ")".toList, "\x7b".toList, "\x7d".toList])

/-- The Inheritance predicate in the specification's words: the lexeme equals
the profile's `inheritance` role value. -/
def specInheritance (t : Str) (p : Profile) : Bool :=
  decide (mapFind p "inheritance".toList = some t)

/-- The priority order of the specification: each predicate with its kind. -/
def priorityOrder (t : Str) (p : Profile) : List (Bool × TokenType) :=
  [ (specKeyword t p, .KEYWORD),
    (specIdentifier t, .IDENTIFIER),
    (specOperator t, .OPERATOR),
    (specDelimiter t, .DELIMITER),
    (isLiteral t, .LITERAL),
    (isComment t p, .COMMENT),
    (isWhitespace t, .WHITESPACE),
    (isBlockStart t, .START_BLOCK),
    (isBlockEnd t, .END_BLOCK),
    (isFunctionStart t, .START_FUNCTION),
    (isFunctionEnd t, .END_FUNCTION),
    (isClassDeclaration t p, .CLASS),
    (specInheritance t p, .INHERITANCE) ]

/-- First match wins: the kind of the first predicate that holds, and `UNKNOWN`
when none does. -/
def firstMatch : List (Bool × TokenType) → TokenType
  | [] => .UNKNOWN
  | (b, k) :: rest => if b then k else firstMatch rest

/-- The profile defines the role `key`. -/
def definesRole (p : Profile) (key : Str) : Prop :=
  ∃ v, mapFind p key = some v

/-- The first kind whose test holds, if any. -/
def firstSome : List (Bool × TokenType) → Option TokenType
  | [] => none
  | (b, k) :: rest => if b then some k else firstSome rest

/-- The twelve tests of `getTokenType` that cannot fail, in source order. -/
def sourceTests (t : Str) (p : Profile) : List (Bool × TokenType) :=
  [ (isKeyword t p, .KEYWORD),
    (isIdentifier t, .IDENTIFIER),
    (isOperator t, .OPERATOR),
    (isDelimiter t, .DELIMITER),
    (isLiteral t, .LITERAL),
    (isComment t p, .COMMENT),
    (isWhitespace t, .WHITESPACE),
    (isBlockStart t, .START_BLOCK),
    (isBlockEnd t, .END_BLOCK),
    (isFunctionStart t, .START_FUNCTION),
    (isFunctionEnd t, .END_FUNCTION),
    (isClassDeclaration t p, .CLASS) ]

/-- The maximal runs of non-whitespace characters of a text, in reading order:
the text split at every whitespace character, empty pieces dropped. -/
def maximalRuns (text : Str) : List Str :=
  (text.splitOnP isspace).filter (fun w => decide (w ≠ []))

/-- The lexemes `tokenize` reads from a text: the `>>` extractions of each line
delivered by `getline`, in order. -/
def lexemes (code : Str) : List Str :=
  (getlineLoop code []).flatMap (fun line => extractLoop line [])

/-- The tokens of a list of lexemes: each lexeme with its kind, those of kind
`WHITESPACE` left out; the first failing classification fails the whole. -/
def classifyAll (p : Profile) : List Str → Except Exn (List Token)
  | [] => .ok []
  | w :: ws =>
    match getTokenType w p with
    | .error e => .error e
    | .ok k =>
      match classifyAll p ws with
      | .error e => .error e
      | .ok ts => .ok (if k = .WHITESPACE then ts else ⟨k, w⟩ :: ts)

/-- The leaf node `{token.type, token.value}` that `buildAST` adds for a token
outside the scope kinds. -/
def leaf (token : Token) : ASTNode :=
  .mk (.kind token.type) token.value []

/-- The text `translateAST` appends for a row of leaves whose kinds are neither
scope kinds nor `INHERITANCE`: comments go through `translateComment`, every
other leaf is its text and a space. -/
def emitLeaves (targetMapping : Profile) : List Token → Except Exn Str
  | [] => .ok []
  | token :: rest =>
    match (if token.type = .COMMENT then translateComment token.value targetMapping
      else .ok (token.value ++ " ".toList)) with
    | .error e => .error e
    | .ok piece =>
      match emitLeaves targetMapping rest with
      | .error e => .error e
      | .ok more => .ok (piece ++ more)

/-- The text of a row of lexemes, each followed by a single space. -/
def spaced (ws : List Str) : Str :=
  ws.flatMap (fun w => w ++ " ".toList)

/-- The name is one of the two built-in languages. -/
def isBuiltin (name : Str) : Prop :=
  name = "cpp".toList ∨ name = "python".toList

/-- The kind `getTokenType` gives a lexeme, with `UNKNOWN` standing in where
the classification fails. -/
def kindOf (p : Profile) (w : Str) : TokenType :=
  match getTokenType w p with
  | .ok k => k
  | .error _ => .UNKNOWN

/-- The Comment predicate in the specification's words: the lexeme starts with
the profile's `single_line_comment`, `multi_line_comment_start` or
`multi_line_comment_end` symbol. -/
def specComment (t : Str) (p : Profile) : Bool :=
  ["single_line_comment".toList, "multi_line_comment_start".toList,
    "multi_line_comment_end".toList].any
    (fun role =>
      match mapFind p role with
      | some symbol => symbol.isPrefixOf t
      | none => false)

/-- The nested call `translateCode(translateCode(code, A, B), B, A)`: the second
call runs on the text and the registry the first one leaves; an exception of
the first call ends the round trip. -/
def roundTrip (r : Registry) (code a b : Str) : Except Exn Str × Registry :=
  match translateCode r code a b with
  | (.ok mid, r1) => translateCode r1 mid b a
  | (.error e, r1) => (.error e, r1)

/-- The number of lexemes of a text equal to a symbol. -/
def countLexeme (symbol text : Str) : Nat :=
  (lexemes text).count symbol

/-- The keys of a profile are pairwise different, as in every
`std::unordered_map`. -/
def uniqueKeys (p : Profile) : Prop :=
  (p.map Prod.fst).Nodup

/-- The piece `translateAST` appends for a leaf that is neither a comment nor of
a scope kind: the target's `inheritance` symbol for an `INHERITANCE` leaf, the
leaf's own text otherwise, each followed by a space. -/
def leafPiece (inheritanceSymbol : Str) (token : Token) : Str :=
  if token.type = .INHERITANCE then inheritanceSymbol ++ " ".toList
  else token.value ++ " ".toList

/-! ## Lemmas on association lists and the classifier -/

theorem mapFind_mem_values (p : Profile) (key v : Str) (h : mapFind p key = some v) :
    v ∈ p.map Prod.snd := by
  induction p with
  | nil => simp [mapFind] at h
  | cons e rest ih =>
    obtain ⟨k, w⟩ := e
    by_cases hk : k = key
    · simp [mapFind, hk] at h
      simp [h]
    · simp [mapFind, hk] at h
      simp [ih h]

theorem isKeyword_iff (t : Str) (p : Profile) :
    isKeyword t p = true ↔ t ∈ p.map Prod.snd := by
  simp only [isKeyword, List.any_eq_true, decide_eq_true_eq, List.mem_map]
  constructor
  · rintro ⟨e, he, rfl⟩
    exact ⟨e, he, rfl⟩
  · rintro ⟨e, he, rfl⟩
    exact ⟨e, he, rfl⟩

theorem specKeyword_eq (t : Str) (p : Profile) : specKeyword t p = isKeyword t p := by
  rw [Bool.eq_iff_iff, isKeyword_iff]
  simp [specKeyword]

theorem specIdentifier_eq (t : Str) : specIdentifier t = isIdentifier t := by
  cases t with
  | nil => decide
  | cons c cs => simp [specIdentifier, isIdentifier, front]

theorem specOperator_eq (t : Str) : specOperator t = isOperator t := by
  rw [Bool.eq_iff_iff]
  simp [specOperator, isOperator, operators]

theorem specDelimiter_eq (t : Str) : specDelimiter t = isDelimiter t := by
  rw [Bool.eq_iff_iff]
  simp [specDelimiter, isDelimiter, delimiters]

theorem isInheritance_eq (t : Str) (p : Profile) (v : Str)
    (h : mapFind p "inheritance".toList = some v) :
    isInheritance t p = .ok (specInheritance t p) := by
  simp only [isInheritance, mapAt, h, specInheritance]
  congr 1
  rw [Bool.eq_iff_iff]
  simp [eq_comm]

theorem isInheritance_ok (t : Str) (p : Profile) (b : Bool) (h : isInheritance t p = .ok b) :
    b = specInheritance t p := by
  cases hf : mapFind p "inheritance".toList with
  | none =>
    rw [isInheritance, mapAt, hf] at h
    cases h
  | some v =>
    rw [isInheritance_eq t p v hf] at h
    exact (Except.ok.inj h).symm

theorem specInheritance_isKeyword (t : Str) (p : Profile) (h : specInheritance t p = true) :
    isKeyword t p = true := by
  rw [isKeyword_iff]
  exact mapFind_mem_values p _ t (by simpa [specInheritance] using h)

/-- The `if`/`else if` chain as a search through `sourceTests`, with the
`inheritance` lookup only when all twelve fail. -/
theorem getTokenType_chain (t : Str) (p : Profile) :
    getTokenType t p =
      match firstSome (sourceTests t p) with
      | some k => .ok k
      | none =>
        match isInheritance t p with
        | .ok true => .ok .INHERITANCE
        | .ok false => .ok .UNKNOWN
        | .error e => .error e := by
  unfold getTokenType sourceTests
  generalize isKeyword t p = b1
  generalize isIdentifier t = b2
  generalize isOperator t = b3
  generalize isDelimiter t = b4
  generalize isLiteral t = b5
  generalize isComment t p = b6
  generalize isWhitespace t = b7
  generalize isBlockStart t = b8
  generalize isBlockEnd t = b9
  generalize isFunctionStart t = b10
  generalize isFunctionEnd t = b11
  generalize isClassDeclaration t p = b12
  cases b1; swap; rfl
  cases b2; swap; rfl
  cases b3; swap; rfl
  cases b4; swap; rfl
  cases b5; swap; rfl
  cases b6; swap; rfl
  cases b7; swap; rfl
  cases b8; swap; rfl
  cases b9; swap; rfl
  cases b10; swap; rfl
  cases b11; swap; rfl
  cases b12; swap; rfl
  rfl

theorem firstMatch_append_single (l : List (Bool × TokenType)) (b : Bool) :
    firstMatch (l ++ [(b, .INHERITANCE)]) =
      match firstSome l with
      | some k => k
      | none => if b then .INHERITANCE else .UNKNOWN := by
  induction l with
  | nil => rfl
  | cons e rest ih =>
    obtain ⟨c, k⟩ := e
    cases c
    · simpa [firstMatch, firstSome] using ih
    · simp [firstMatch, firstSome]

theorem priorityOrder_eq (t : Str) (p : Profile) :
    priorityOrder t p = sourceTests t p ++ [(specInheritance t p, .INHERITANCE)] := by
  unfold priorityOrder sourceTests
  rw [specKeyword_eq, specIdentifier_eq, specOperator_eq, specDelimiter_eq]
  rfl

/-- The classifier agrees with the first match of the priority order whenever it
returns. -/
theorem getTokenType_ok_eq (t : Str) (p : Profile) (k : TokenType)
    (h : getTokenType t p = .ok k) : k = firstMatch (priorityOrder t p) := by
  rw [priorityOrder_eq, firstMatch_append_single]
  rw [getTokenType_chain] at h
  cases hs : firstSome (sourceTests t p) with
  | some k' => rw [hs] at h; cases h; rfl
  | none =>
    rw [hs] at h
    cases hi : isInheritance t p with
    | error e => rw [hi] at h; cases h
    | ok b =>
      have hb := isInheritance_ok t p b hi
      rw [hi] at h
      rw [← hb]
      cases b <;> cases h <;> rfl

/-- The classifier returns a kind as soon as the `inheritance` role is defined. -/
theorem getTokenType_returns (t : Str) (p : Profile)
    (h : definesRole p "inheritance".toList) : ∃ k, getTokenType t p = .ok k := by
  obtain ⟨v, hv⟩ := h
  rw [getTokenType_chain, isInheritance_eq t p v hv]
  cases firstSome (sourceTests t p) with
  | some k => exact ⟨k, rfl⟩
  | none => cases specInheritance t p <;> exact ⟨_, rfl⟩

theorem firstSome_sourceTests_not_scope (t : Str) (p : Profile) (k : TokenType)
    (h : firstSome (sourceTests t p) = some k) : isScopeKind k = false ∧ k ≠ .INHERITANCE := by
  have h8 : isBlockStart t = true → isDelimiter t = true := by
    intro hh; rw [isBlockStart, decide_eq_true_eq] at hh; subst hh; rfl
  have h9 : isBlockEnd t = true → isDelimiter t = true := by
    intro hh; rw [isBlockEnd, decide_eq_true_eq] at hh; subst hh; rfl
  have h10 : isFunctionStart t = true → isDelimiter t = true := by
    intro hh; rw [isFunctionStart, decide_eq_true_eq] at hh; subst hh; rfl
  have h11 : isFunctionEnd t = true → isDelimiter t = true := by
    intro hh; rw [isFunctionEnd, decide_eq_true_eq] at hh; subst hh; rfl
  have h12 : isClassDeclaration t p = isKeyword t p := rfl
  unfold sourceTests at h
  rw [h12] at h
  generalize isKeyword t p = b1 at h
  generalize isIdentifier t = b2 at h
  generalize isOperator t = b3 at h
  generalize isDelimiter t = b4 at h h8 h9 h10 h11
  generalize isLiteral t = b5 at h
  generalize isComment t p = b6 at h
  generalize isWhitespace t = b7 at h
  generalize isBlockStart t = b8 at h h8
  generalize isBlockEnd t = b9 at h h9
  generalize isFunctionStart t = b10 at h h10
  generalize isFunctionEnd t = b11 at h h11
  cases b1; swap; · simp [firstSome] at h; subst h; decide
  cases b2; swap; · simp [firstSome] at h; subst h; decide
  cases b3; swap; · simp [firstSome] at h; subst h; decide
  cases b4; swap; · simp [firstSome] at h; subst h; decide
  cases b5; swap; · simp [firstSome] at h; subst h; decide
  cases b6; swap; · simp [firstSome] at h; subst h; decide
  cases b7; swap; · simp [firstSome] at h; subst h; decide
  cases b8 <;> cases b9 <;> cases b10 <;> cases b11 <;> simp_all [firstSome]

/-- No lexeme is classified as a scope kind or as `INHERITANCE`: the Delimiter
and Keyword tests come first. -/
theorem getTokenType_not_scope (t : Str) (p : Profile) (k : TokenType)
    (h : getTokenType t p = .ok k) : isScopeKind k = false ∧ k ≠ .INHERITANCE := by
  rw [getTokenType_chain] at h
  cases hs : firstSome (sourceTests t p) with
  | some k' =>
    rw [hs] at h; cases h
    exact firstSome_sourceTests_not_scope t p k hs
  | none =>
    rw [hs] at h
    cases hi : isInheritance t p with
    | error e => rw [hi] at h; cases h
    | ok b =>
      have hb := isInheritance_ok t p b hi
      rw [hi] at h
      cases b
      · cases h; exact ⟨rfl, by decide⟩
      · have hk := specInheritance_isKeyword t p hb.symm
        simp only [sourceTests, firstSome, hk, if_true] at hs
        cases hs

/-! ## Lemmas on the lexer -/

theorem extractLoop_eq_splitOnP_go (cs cur : Str) :
    extractLoop cs cur = (List.splitOnP.go isspace cs cur).filter (fun w => decide (w ≠ [])) := by
  induction cs generalizing cur with
  | nil =>
    cases cur with
    | nil => rfl
    | cons x xs => simp [extractLoop, List.splitOnP.go, List.filter]
  | cons c cs ih =>
    by_cases hc : isspace c = true
    · cases cur with
      | nil => simp [extractLoop, List.splitOnP.go, hc, ih, List.filter]
      | cons x xs => simp [extractLoop, List.splitOnP.go, hc, ih, List.filter]
    · simp [extractLoop, List.splitOnP.go, hc, ih]

theorem extractLoop_eq_maximalRuns (text : Str) : extractLoop text [] = maximalRuns text := by
  rw [extractLoop_eq_splitOnP_go]
  rfl

theorem extractLoop_append_space (a b cur : Str) (c : Char) (hc : isspace c = true) :
    extractLoop (a ++ c :: b) cur = extractLoop a cur ++ extractLoop b [] := by
  induction a generalizing cur with
  | nil =>
    cases cur with
    | nil => simp [extractLoop, hc]
    | cons x xs => simp [extractLoop, hc]
  | cons x a ih =>
    by_cases hx : isspace x = true
    · cases cur with
      | nil => simp [extractLoop, hx, ih]
      | cons y ys => simp [extractLoop, hx, ih]
    · simp [extractLoop, hx, ih]

theorem getlineLoop_bind_extract (cs cur : Str) :
    (getlineLoop cs cur).flatMap (fun line => extractLoop line []) =
      extractLoop (cur.reverse ++ cs) [] := by
  induction cs generalizing cur with
  | nil =>
    cases cur with
    | nil => simp [getlineLoop, extractLoop]
    | cons x xs => simp [getlineLoop]
  | cons c cs ih =>
    by_cases hc : c = '\n'
    · subst hc
      have hsp : isspace '\n' = true := by decide
      simp only [getlineLoop, if_true, List.flatMap_cons, ih, List.reverse_nil, List.nil_append]
      rw [extractLoop_append_space _ _ _ _ hsp]
    · simp only [getlineLoop, hc, if_false, ih]
      simp

/-- Splitting into lines first changes nothing: the lexemes of a text are its
maximal runs of non-whitespace characters. -/
theorem lexemes_eq_maximalRuns (code : Str) : lexemes code = maximalRuns code := by
  rw [lexemes, getlineLoop_bind_extract, ← extractLoop_eq_maximalRuns]
  rfl

theorem extractLoop_join (cs cur : Str) :
    (extractLoop cs cur).flatten = cur.reverse ++ cs.filter (fun c => !isspace c) := by
  induction cs generalizing cur with
  | nil =>
    cases cur with
    | nil => simp [extractLoop]
    | cons x xs => simp [extractLoop]
  | cons c cs ih =>
    by_cases hc : isspace c = true
    · cases cur with
      | nil => simp [extractLoop, hc, ih]
      | cons y ys => simp [extractLoop, hc, ih]
    · simp [extractLoop, hc, ih]

theorem extractLoop_mem (cs cur w : Str) (hcur : ∀ x ∈ cur, isspace x = false)
    (hw : w ∈ extractLoop cs cur) : w ≠ [] ∧ ∀ x ∈ w, isspace x = false := by
  induction cs generalizing cur with
  | nil =>
    cases cur with
    | nil => simp [extractLoop] at hw
    | cons y ys =>
      simp [extractLoop] at hw
      subst hw
      refine ⟨by simp, ?_⟩
      intro x hx
      apply hcur
      simpa [or_comm] using hx
  | cons c cs ih =>
    by_cases hc : isspace c = true
    · cases cur with
      | nil =>
        simp only [extractLoop, hc, if_true] at hw
        exact ih [] (by simp) hw
      | cons y ys =>
        simp only [extractLoop, hc, if_true, reduceCtorEq, if_false, List.mem_cons] at hw
        rcases hw with hw | hw
        · subst hw
          refine ⟨by simp, ?_⟩
          intro x hx
          apply hcur
          simpa [or_comm] using hx
        · exact ih [] (by simp) hw
    · simp only [extractLoop, hc, if_false] at hw
      refine ih (c :: cur) ?_ hw
      intro x hx
      rcases List.mem_cons.mp hx with hx | hx
      · subst hx; simpa using hc
      · exact hcur x hx

theorem maximalRuns_mem (text w : Str) (hw : w ∈ maximalRuns text) :
    w ≠ [] ∧ ∀ x ∈ w, isspace x = false := by
  rw [← extractLoop_eq_maximalRuns] at hw
  exact extractLoop_mem text [] w (by simp) hw

theorem isWhitespace_false_of_run (w : Str) (h : w ≠ [] ∧ ∀ x ∈ w, isspace x = false) :
    isWhitespace w = false := by
  obtain ⟨hne, hall⟩ := h
  cases w with
  | nil => exact absurd rfl hne
  | cons c cs =>
    simp [isWhitespace, hall c (by simp)]

/-! ## Lemmas on `tokenize` -/

theorem tokenizeLine_eq (p : Profile) (ws : List Str) (tokens : List Token) :
    tokenizeLine p ws tokens = (classifyAll p ws).map (fun ts => tokens ++ ts) := by
  induction ws generalizing tokens with
  | nil => simp [tokenizeLine, classifyAll, Except.map]
  | cons w ws ih =>
    simp only [tokenizeLine, classifyAll]
    cases hk : getTokenType w p with
    | error e => rfl
    | ok k =>
      simp only []
      by_cases hw : k = .WHITESPACE
      · simp only [hw, if_true, ih]
        cases classifyAll p ws <;> rfl
      · simp only [hw, if_false, ih]
        cases classifyAll p ws <;> simp [Except.map]

theorem classifyAll_append (p : Profile) (a b : List Str) :
    classifyAll p (a ++ b) =
      match classifyAll p a with
      | .error e => .error e
      | .ok ta =>
        match classifyAll p b with
        | .error e => .error e
        | .ok tb => .ok (ta ++ tb) := by
  induction a with
  | nil => cases h : classifyAll p b <;> simp [classifyAll, h]
  | cons w a ih =>
    rw [List.cons_append]
    simp only [classifyAll]
    rw [ih]
    cases getTokenType w p with
    | error e => rfl
    | ok k =>
      cases classifyAll p a with
      | error e => rfl
      | ok ta =>
        cases classifyAll p b with
        | error e => rfl
        | ok tb => by_cases hk : k = .WHITESPACE <;> simp [hk]

theorem tokenizeLines_eq (p : Profile) (lines : List Str) (tokens : List Token) :
    tokenizeLines p lines tokens =
      (classifyAll p (lines.flatMap (fun line => extractLoop line []))).map
        (fun ts => tokens ++ ts) := by
  induction lines generalizing tokens with
  | nil => simp [tokenizeLines, classifyAll, Except.map]
  | cons line lines ih =>
    simp only [tokenizeLines, List.flatMap_cons, classifyAll_append, tokenizeLine_eq]
    cases classifyAll p (extractLoop line []) with
    | error e => rfl
    | ok ta =>
      simp only [Except.map, ih]
      cases classifyAll p (lines.flatMap (fun line => extractLoop line [])) with
      | error e => rfl
      | ok tb => simp [Except.map]

/-- The lexer classifies the lexemes of the text one after the other. -/
theorem tokenize_eq (code : Str) (p : Profile) :
    tokenize code p = classifyAll p (lexemes code) := by
  rw [tokenize, tokenizeLines_eq, lexemes]
  cases classifyAll p ((getlineLoop code []).flatMap (fun line => extractLoop line [])) <;>
    simp [Except.map]

theorem getTokenType_whitespace (t : Str) (p : Profile)
    (h : getTokenType t p = .ok .WHITESPACE) : isWhitespace t = true := by
  rw [getTokenType_chain] at h
  cases hs : firstSome (sourceTests t p) with
  | some k =>
    rw [hs] at h
    cases h
    unfold sourceTests at hs
    generalize isKeyword t p = b1 at hs
    generalize isIdentifier t = b2 at hs
    generalize isOperator t = b3 at hs
    generalize isDelimiter t = b4 at hs
    generalize isLiteral t = b5 at hs
    generalize isComment t p = b6 at hs
    generalize isWhitespace t = b7 at hs ⊢
    cases b1; swap; · simp [firstSome] at hs
    cases b2; swap; · simp [firstSome] at hs
    cases b3; swap; · simp [firstSome] at hs
    cases b4; swap; · simp [firstSome] at hs
    cases b5; swap; · simp [firstSome] at hs
    cases b6; swap; · simp [firstSome] at hs
    cases b7; swap; · rfl
    generalize isBlockStart t = b8 at hs
    generalize isBlockEnd t = b9 at hs
    generalize isFunctionStart t = b10 at hs
    generalize isFunctionEnd t = b11 at hs
    generalize isClassDeclaration t p = b12 at hs
    cases b8 <;> cases b9 <;> cases b10 <;> cases b11 <;> cases b12 <;> simp [firstSome] at hs
  | none =>
    rw [hs] at h
    cases hi : isInheritance t p with
    | error e => rw [hi] at h; cases h
    | ok b => rw [hi] at h; cases b <;> cases h

theorem classifyAll_values (p : Profile) (ws : List Str) (ts : List Token)
    (hws : ∀ w ∈ ws, isWhitespace w = false) (h : classifyAll p ws = .ok ts) :
    ts.map Token.value = ws := by
  induction ws generalizing ts with
  | nil => simp [classifyAll] at h; subst h; rfl
  | cons w ws ih =>
    simp only [classifyAll] at h
    cases hk : getTokenType w p with
    | error e => rw [hk] at h; cases h
    | ok k =>
      rw [hk] at h
      cases hr : classifyAll p ws with
      | error e => rw [hr] at h; cases h
      | ok tr =>
        rw [hr] at h
        have hne : k ≠ .WHITESPACE := by
          intro hkw
          subst hkw
          have := getTokenType_whitespace w p hk
          rw [hws w (by simp)] at this
          cases this
        simp only [hne, if_false] at h
        cases h
        simp [ih tr (fun x hx => hws x (by simp [hx])) hr]

theorem classifyAll_returns (p : Profile) (ws : List Str)
    (h : definesRole p "inheritance".toList) : ∃ ts, classifyAll p ws = .ok ts := by
  induction ws with
  | nil => exact ⟨[], rfl⟩
  | cons w ws ih =>
    obtain ⟨k, hk⟩ := getTokenType_returns w p h
    obtain ⟨tr, hr⟩ := ih
    exact ⟨if k = .WHITESPACE then tr else ⟨k, w⟩ :: tr, by simp only [classifyAll, hk, hr]⟩

/-! ## Lemmas on the tree builder and the emitter -/

theorem buildASTLoop_flat (tokens : List Token) (current : ASTNode)
    (h : ∀ t ∈ tokens, isScopeKind t.type = false) :
    buildASTLoop tokens current [] =
      .ok (.mk current.type current.value (current.children ++ tokens.map leaf)) := by
  induction tokens generalizing current with
  | nil =>
    obtain ⟨ty, v, cs⟩ := current
    simp [buildASTLoop, closeAll, ASTNode.type, ASTNode.value, ASTNode.children]
  | cons t ts ih =>
    have ht : isScopeKind t.type = false := h t (by simp)
    simp only [buildASTLoop, ht, Bool.false_eq_true, if_false]
    rw [ih _ (fun x hx => h x (by simp [hx]))]
    simp [ASTNode.push_back, ASTNode.type, ASTNode.value, ASTNode.children, leaf]

theorem buildAST_flat (tokens : List Token) (h : ∀ t ∈ tokens, isScopeKind t.type = false) :
    buildAST tokens = .ok (.mk (.text []) [] (tokens.map leaf)) := by
  rw [buildAST, buildASTLoop_flat tokens _ h]
  rfl

theorem classifyAll_kinds (p : Profile) (ws : List Str) (ts : List Token)
    (h : classifyAll p ws = .ok ts) :
    ∀ t ∈ ts, isScopeKind t.type = false ∧ t.type ≠ .INHERITANCE := by
  induction ws generalizing ts with
  | nil => simp [classifyAll] at h; subst h; simp
  | cons w ws ih =>
    simp only [classifyAll] at h
    cases hk : getTokenType w p with
    | error e => rw [hk] at h; cases h
    | ok k =>
      rw [hk] at h
      cases hr : classifyAll p ws with
      | error e => rw [hr] at h; cases h
      | ok tr =>
        rw [hr] at h
        cases h
        intro t ht
        by_cases hkw : k = .WHITESPACE
        · rw [if_pos hkw] at ht
          exact ih tr hr t ht
        · rw [if_neg hkw] at ht
          rcases List.mem_cons.mp ht with ht | ht
          · subst ht
            exact getTokenType_not_scope w p k hk
          · exact ih tr hr t ht

theorem translateNode_leaf (t : Token) (T : Profile)
    (h : isScopeKind t.type = false ∧ t.type ≠ .INHERITANCE) :
    translateNode (leaf t) T =
      if t.type = .COMMENT then translateComment t.value T
      else .ok (t.value ++ " ".toList) := by
  obtain ⟨k, v⟩ := t
  obtain ⟨h1, h2⟩ := h
  cases k <;> first
    | rfl
    | exact (h2 rfl).elim
    | simp [isScopeKind] at h1

theorem translateNodes_leaves (ts : List Token) (T : Profile)
    (h : ∀ t ∈ ts, isScopeKind t.type = false ∧ t.type ≠ .INHERITANCE) :
    translateNodes (ts.map leaf) T = emitLeaves T ts := by
  induction ts with
  | nil => rfl
  | cons t ts ih =>
    rw [List.map_cons, translateNodes, translateNode_leaf t T (h t (by simp)),
      ih (fun x hx => h x (by simp [hx]))]
    rw [emitLeaves]
    cases (if t.type = .COMMENT then translateComment t.value T
      else Except.ok (t.value ++ " ".toList)) with
    | error e => rfl
    | ok piece =>
      cases emitLeaves T ts with
      | error e => rfl
      | ok more => rfl

/-- The whole pipeline: classify the lexemes, then emit them as a flat row of
leaves. The scope branches of `buildAST` and `translateAST` are never taken. -/
theorem translateCodeInternal_eq (code : Str) (S T : Profile) :
    translateCodeInternal code S T =
      match classifyAll S (lexemes code) with
      | .error e => .error e
      | .ok ts => emitLeaves T ts := by
  rw [translateCodeInternal, tokenize_eq]
  cases hc : classifyAll S (lexemes code) with
  | error e => rfl
  | ok ts =>
    have hk := classifyAll_kinds S (lexemes code) ts hc
    have hb := buildAST_flat ts (fun t ht => (hk t ht).1)
    show (buildAST ts >>= fun root => translateAST root T) = emitLeaves T ts
    rw [hb]
    show translateNodes (ts.map leaf) T = emitLeaves T ts
    exact translateNodes_leaves ts T hk

theorem translateComment_cpp (v : Str) : translateComment v cppProfile = .error .out_of_range := by
  have h1 : mapAt cppProfile "multi_line_comment_start".toList = .ok "/*".toList := by decide
  have h2 : mapAt cppProfile "comment_start".toList = .error .out_of_range := by decide
  unfold translateComment
  rw [h1, h2]
  show (if _ then _ else _) = _
  split <;> rfl

theorem translateComment_python (v : Str) :
    translateComment v pythonProfile = .error .out_of_range := by
  have h1 : mapAt pythonProfile "multi_line_comment_start".toList = .ok "'''".toList := by
    decide
  have h2 : mapAt pythonProfile "comment_start".toList = .error .out_of_range := by decide
  unfold translateComment
  rw [h1, h2]
  show (if _ then _ else _) = _
  split <;> rfl

theorem emitLeaves_ok (T : Profile) (hT : ∀ v, translateComment v T = .error .out_of_range)
    (ts : List Token) (out : Str) (h : emitLeaves T ts = .ok out) :
    out = spaced (ts.map Token.value) ∧ ∀ t ∈ ts, t.type ≠ .COMMENT := by
  induction ts generalizing out with
  | nil => simp [emitLeaves] at h; subst h; simp [spaced]
  | cons t ts ih =>
    rw [emitLeaves] at h
    by_cases hc : t.type = .COMMENT
    · rw [if_pos hc, hT] at h
      cases h
    · rw [if_neg hc] at h
      cases hr : emitLeaves T ts with
      | error e => rw [hr] at h; cases h
      | ok more =>
        rw [hr] at h
        cases h
        obtain ⟨h1, h2⟩ := ih more hr
        refine ⟨by simp [spaced, h1], ?_⟩
        intro x hx
        rcases List.mem_cons.mp hx with hx | hx
        · subst hx; exact hc
        · exact h2 x hx

theorem emitLeaves_no_comment (T : Profile) (ts : List Token)
    (h : ∀ t ∈ ts, t.type ≠ .COMMENT) : emitLeaves T ts = .ok (spaced (ts.map Token.value)) := by
  induction ts with
  | nil => rfl
  | cons t ts ih =>
    rw [emitLeaves, if_neg (h t (by simp)), ih (fun x hx => h x (by simp [hx]))]
    simp [spaced]

theorem spaced_getLast (ws : List Str) : spaced ws = [] ∨ (spaced ws).getLast? = some ' ' := by
  induction ws with
  | nil => left; rfl
  | cons w ws ih =>
    right
    have hcons : spaced (w :: ws) = (w ++ [' ']) ++ spaced ws := by simp [spaced]
    rw [hcons]
    rcases ih with h | h
    · rw [h]; simp
    · rw [List.getLast?_append, h]; rfl

/-! ## Lemmas on the registry -/

theorem mapFind_append_single {β : Type} (r : List (Str × β)) (k n : Str) (v : β) :
    mapFind (r ++ [(k, v)]) n =
      match mapFind r n with
      | some p => some p
      | none => if k = n then some v else none := by
  induction r with
  | nil => simp [mapFind]
  | cons e r ih =>
    obtain ⟨k', v'⟩ := e
    by_cases hk : k' = n
    · simp [mapFind, hk]
    · simp [mapFind, hk, ih]

theorem mapFind_mapIndex (r : Registry) (k n : Str) :
    mapFind (mapIndex r k).2 n =
      match mapFind r n with
      | some p => some p
      | none => if n = k then some [] else none := by
  unfold mapIndex
  cases hk : mapFind r k with
  | some p =>
    simp only []
    cases hn : mapFind r n with
    | some q => rfl
    | none =>
      have : n ≠ k := by
        intro hnk; subst hnk; rw [hk] at hn; cases hn
      simp [this]
  | none =>
    simp only [mapFind_append_single]
    cases mapFind r n with
    | some q => rfl
    | none => simp [eq_comm]

theorem mapIndex_fst (r : Registry) (k : Str) : (mapIndex r k).1 = (mapFind r k).getD [] := by
  unfold mapIndex
  cases mapFind r k <;> rfl

/-- The outcome of `translateCode` in terms of the lookups in the registry
before the call. -/
theorem translateCode_fst (r : Registry) (code s t : Str) :
    (translateCode r code s t).1 =
      if ((mapFind r s).getD []).isEmpty || ((mapFind r t).getD []).isEmpty then
        .ok "Unsupported language".toList
      else translateCodeInternal code ((mapFind r s).getD []) ((mapFind r t).getD []) := by
  have h2 : (mapIndex (mapIndex r s).2 t).1 = (mapFind r t).getD [] := by
    rw [mapIndex_fst, mapFind_mapIndex]
    cases mapFind r t with
    | some p => rfl
    | none => by_cases hts : t = s <;> simp [hts]
  have h1 := mapIndex_fst r s
  unfold translateCode
  simp only []
  rw [← h1, ← h2]
  split <;> rfl

theorem translateCode_snd (r : Registry) (code s t : Str) :
    (translateCode r code s t).2 = (mapIndex (mapIndex r s).2 t).2 := by
  unfold translateCode
  simp only []
  split <;> rfl

/-! ## Lemmas on the built-in profiles -/

theorem isComment_cpp (t : Str) : isComment t cppProfile = true := by
  rw [isComment, List.any_eq_true]
  exact ⟨("function".toList, "".toList), by decide, by simp⟩

theorem isComment_python (t : Str) : isComment t pythonProfile = true := by
  rw [isComment, List.any_eq_true]
  exact ⟨("end_block".toList, "".toList), by decide, by simp⟩

theorem firstSome_of_comment (t : Str) (p : Profile) (hc : isComment t p = true) :
    ∃ k, firstSome (sourceTests t p) = some k ∧ k ≠ .WHITESPACE ∧ k ≠ .UNKNOWN ∧
      (k = .COMMENT ↔ (isKeyword t p = false ∧ isIdentifier t = false ∧
        isOperator t = false ∧ isDelimiter t = false ∧ isLiteral t = false)) := by
  unfold sourceTests
  rw [hc]
  generalize isKeyword t p = b1
  generalize isIdentifier t = b2
  generalize isOperator t = b3
  generalize isDelimiter t = b4
  generalize isLiteral t = b5
  cases b1; swap; · exact ⟨.KEYWORD, rfl, by decide, by decide, by simp⟩
  cases b2; swap; · exact ⟨.IDENTIFIER, rfl, by decide, by decide, by simp⟩
  cases b3; swap; · exact ⟨.OPERATOR, rfl, by decide, by decide, by simp⟩
  cases b4; swap; · exact ⟨.DELIMITER, rfl, by decide, by decide, by simp⟩
  cases b5; swap; · exact ⟨.LITERAL, rfl, by decide, by decide, by simp⟩
  exact ⟨.COMMENT, rfl, by decide, by decide, by simp⟩

theorem getTokenType_of_comment (t : Str) (p : Profile) (hc : isComment t p = true) :
    ∃ k, getTokenType t p = .ok k ∧ k ≠ .WHITESPACE ∧ k ≠ .UNKNOWN := by
  obtain ⟨k, hk, h1, h2, _⟩ := firstSome_of_comment t p hc
  exact ⟨k, by rw [getTokenType_chain, hk], h1, h2⟩

theorem isComment_builtin (t : Str) (p : Profile) (hp : p = cppProfile ∨ p = pythonProfile) :
    isComment t p = true := by
  rcases hp with hp | hp <;> subst hp
  · exact isComment_cpp t
  · exact isComment_python t

theorem getTokenType_kindOf (t : Str) (p : Profile) (hp : p = cppProfile ∨ p = pythonProfile) :
    getTokenType t p = .ok (kindOf p t) ∧ kindOf p t ≠ .WHITESPACE := by
  obtain ⟨k, hk, h1, _⟩ := getTokenType_of_comment t p (isComment_builtin t p hp)
  have : kindOf p t = k := by rw [kindOf, hk]
  rw [this]
  exact ⟨hk, h1⟩

theorem classifyAll_builtin (p : Profile) (hp : p = cppProfile ∨ p = pythonProfile)
    (ws : List Str) :
    classifyAll p ws = .ok (ws.map (fun w => ⟨kindOf p w, w⟩)) := by
  induction ws with
  | nil => rfl
  | cons w ws ih =>
    obtain ⟨h1, h2⟩ := getTokenType_kindOf w p hp
    simp only [classifyAll, h1, ih, h2, if_false, List.map_cons]

theorem translateComment_builtin (T : Profile) (hT : T = cppProfile ∨ T = pythonProfile)
    (v : Str) : translateComment v T = .error .out_of_range := by
  rcases hT with hT | hT <;> subst hT
  · exact translateComment_cpp v
  · exact translateComment_python v

theorem emitLeaves_error (T : Profile)
    (hT : ∀ v, translateComment v T = .error .out_of_range) (ts : List Token) (e : Exn)
    (h : emitLeaves T ts = .error e) : e = .out_of_range := by
  induction ts with
  | nil => cases h
  | cons t ts ih =>
    rw [emitLeaves] at h
    by_cases hc : t.type = .COMMENT
    · rw [if_pos hc, hT] at h
      cases h
      rfl
    · rw [if_neg hc] at h
      cases hm : emitLeaves T ts with
      | error e' =>
        rw [hm] at h
        cases h
        exact ih hm
      | ok more => rw [hm] at h; cases h

theorem emitLeaves_comment (T : Profile)
    (hT : ∀ v, translateComment v T = .error .out_of_range) (ts : List Token)
    (h : ∃ t ∈ ts, t.type = .COMMENT) : emitLeaves T ts = .error .out_of_range := by
  cases hr : emitLeaves T ts with
  | error e => rw [emitLeaves_error T hT ts e hr]
  | ok out =>
    obtain ⟨x, hx, hxc⟩ := h
    exact absurd hxc ((emitLeaves_ok T hT ts out hr).2 x hx)

/-- The registry of the constructor maps the built-in names to the built-in
profiles. -/
theorem mapFind_builtin (s : Str) (hs : isBuiltin s) :
    ∃ S, mapFind CodeTranslator s = some S ∧ (S = cppProfile ∨ S = pythonProfile) ∧
      S.isEmpty = false := by
  rcases hs with hs | hs <;> subst hs
  · exact ⟨cppProfile, by decide, Or.inl rfl, by decide⟩
  · exact ⟨pythonProfile, by decide, Or.inr rfl, by decide⟩

/-- The outcome of `translateCode` for two built-in languages. -/
theorem translateCode_builtin (code s t : Str) (S T : Profile)
    (hS : mapFind CodeTranslator s = some S) (hT : mapFind CodeTranslator t = some T)
    (hSb : S = cppProfile ∨ S = pythonProfile) (hTb : T = cppProfile ∨ T = pythonProfile) :
    (translateCode CodeTranslator code s t).1 =
      if ∃ w ∈ lexemes code, kindOf S w = .COMMENT then .error .out_of_range
      else .ok (spaced (lexemes code)) := by
  have hSe : S.isEmpty = false := by rcases hSb with h | h <;> subst h <;> decide
  have hTe : T.isEmpty = false := by rcases hTb with h | h <;> subst h <;> decide
  rw [translateCode_fst, hS, hT]
  simp only [Option.getD_some, hSe, hTe, Bool.or_self, Bool.false_eq_true, if_false]
  rw [translateCodeInternal_eq, classifyAll_builtin S hSb]
  simp only []
  by_cases hc : ∃ w ∈ lexemes code, kindOf S w = .COMMENT
  · rw [if_pos hc]
    apply emitLeaves_comment T (translateComment_builtin T hTb)
    obtain ⟨w, hw, hk⟩ := hc
    exact ⟨⟨kindOf S w, w⟩, List.mem_map.mpr ⟨w, hw, rfl⟩, hk⟩
  · rw [if_neg hc, emitLeaves_no_comment]
    · simp [List.map_map, Function.comp_def]
    · intro x hx hxc
      obtain ⟨w, hw, rfl⟩ := List.mem_map.mp hx
      exact hc ⟨w, hw, hxc⟩

/-! ## Lemmas on the emitter -/

theorem translateNodes_cons (n : ASTNode) (rest : List ASTNode) (T : Profile) :
    translateNodes (n :: rest) T =
      match translateNode n T with
      | .error e => .error e
      | .ok piece =>
        match translateNodes rest T with
        | .error e => .error e
        | .ok more => .ok (piece ++ more) := by
  rw [translateNodes]
  cases translateNode n T with
  | error e => rfl
  | ok piece =>
    cases translateNodes rest T with
    | error e => rfl
    | ok more => rfl

theorem translateNodes_append (xs ys : List ASTNode) (T : Profile) :
    translateNodes (xs ++ ys) T =
      match translateNodes xs T with
      | .error e => .error e
      | .ok a =>
        match translateNodes ys T with
        | .error e => .error e
        | .ok b => .ok (a ++ b) := by
  induction xs with
  | nil =>
    rw [List.nil_append]
    have h0 : translateNodes [] T = .ok [] := by rw [translateNodes]
    rw [h0]
    cases translateNodes ys T <;> rfl
  | cons n xs ih =>
    rw [List.cons_append, translateNodes_cons, translateNodes_cons, ih]
    cases translateNode n T with
    | error e => rfl
    | ok piece =>
      cases translateNodes xs T with
      | error e => rfl
      | ok a =>
        cases translateNodes ys T with
        | error e => rfl
        | ok b => simp

theorem translateNodes_pieces (ns : List ASTNode) (T : Profile) (out : Str) :
    translateNodes ns T = .ok out ↔
      ∃ pieces, List.Forall₂ (fun n piece => translateNode n T = .ok piece) ns pieces ∧
        out = pieces.flatten := by
  induction ns generalizing out with
  | nil =>
    have h0 : translateNodes [] T = .ok [] := by rw [translateNodes]
    rw [h0]
    constructor
    · intro h
      cases h
      exact ⟨[], List.Forall₂.nil, rfl⟩
    · rintro ⟨pieces, hf, rfl⟩
      cases hf
      rfl
  | cons n ns ih =>
    rw [translateNodes_cons]
    constructor
    · intro h
      cases hn : translateNode n T with
      | error e => rw [hn] at h; cases h
      | ok piece =>
        rw [hn] at h
        cases hr : translateNodes ns T with
        | error e => rw [hr] at h; cases h
        | ok more =>
          rw [hr] at h
          cases h
          obtain ⟨pieces, hf, hm⟩ := (ih more).mp hr
          exact ⟨piece :: pieces, List.Forall₂.cons hn hf, by simp [hm]⟩
    · rintro ⟨pieces, hf, rfl⟩
      cases hf with
      | cons hn hf =>
        rename_i piece pieces
        rw [hn, (ih pieces.flatten).mpr ⟨pieces, hf, rfl⟩]
        simp

theorem translateNode_leafPiece (T : Profile) (t : Token) (inh : Str)
    (hk : t.type ≠ .COMMENT ∧ isScopeKind t.type = false)
    (hinh : t.type = .INHERITANCE → mapFind T "inheritance".toList = some inh) :
    translateNode (leaf t) T = .ok (leafPiece inh t) := by
  obtain ⟨k, v⟩ := t
  obtain ⟨h1, h2⟩ := hk
  cases k
  case INHERITANCE =>
    have hm : mapAt T "inheritance".toList = .ok inh := by rw [mapAt, hinh rfl]
    simp only [leaf, translateNode, hm, leafPiece]
    rfl
  case COMMENT => exact (h1 rfl).elim
  all_goals first
    | rfl
    | simp [isScopeKind] at h2

/-! ## Lemmas on the enumeration order of a profile -/

theorem mapFind_eq_some_iff {β : Type} (p : List (Str × β)) (hp : (p.map Prod.fst).Nodup)
    (k : Str) (v : β) : mapFind p k = some v ↔ (k, v) ∈ p := by
  induction p with
  | nil => simp [mapFind]
  | cons e p ih =>
    obtain ⟨k', v'⟩ := e
    rw [List.map_cons, List.nodup_cons] at hp
    by_cases hk : k' = k
    · subst hk
      simp only [mapFind, if_true, Option.some.injEq, List.mem_cons, Prod.mk.injEq, true_and]
      constructor
      · intro h; exact Or.inl h.symm
      · rintro (h | h)
        · exact h.symm
        · exact absurd (List.mem_map.mpr ⟨(k', v), h, rfl⟩) hp.1
    · simp only [mapFind, hk, if_false, List.mem_cons, Prod.mk.injEq]
      rw [ih hp.2]
      constructor
      · intro h; exact Or.inr h
      · rintro (h | h)
        · exact absurd h.1.symm hk
        · exact h

theorem mapFind_perm {β : Type} (p q : List (Str × β)) (h : p.Perm q)
    (hp : (p.map Prod.fst).Nodup) (k : Str) : mapFind p k = mapFind q k := by
  have hq : (q.map Prod.fst).Nodup := (h.map Prod.fst).nodup_iff.mp hp
  apply Option.ext
  intro v
  rw [Option.mem_def, Option.mem_def, mapFind_eq_some_iff p hp, mapFind_eq_some_iff q hq]
  exact h.mem_iff

theorem isKeyword_perm (t : Str) (p q : Profile) (h : p.Perm q) :
    isKeyword t p = isKeyword t q := by
  rw [Bool.eq_iff_iff, isKeyword, isKeyword, List.any_eq_true, List.any_eq_true]
  constructor
  · rintro ⟨e, he, hx⟩; exact ⟨e, h.mem_iff.mp he, hx⟩
  · rintro ⟨e, he, hx⟩; exact ⟨e, h.mem_iff.mpr he, hx⟩

theorem isComment_perm (t : Str) (p q : Profile) (h : p.Perm q) :
    isComment t p = isComment t q := by
  rw [Bool.eq_iff_iff, isComment, isComment, List.any_eq_true, List.any_eq_true]
  constructor
  · rintro ⟨e, he, hx⟩; exact ⟨e, h.mem_iff.mp he, hx⟩
  · rintro ⟨e, he, hx⟩; exact ⟨e, h.mem_iff.mpr he, hx⟩

theorem getTokenType_perm (t : Str) (p q : Profile) (h : p.Perm q) (hp : uniqueKeys p) :
    getTokenType t p = getTokenType t q := by
  have hcls : isClassDeclaration t p = isClassDeclaration t q := isKeyword_perm t p q h
  have hinh : isInheritance t p = isInheritance t q := by
    rw [isInheritance, isInheritance, mapAt, mapAt, mapFind_perm p q h hp]
  rw [getTokenType_chain, getTokenType_chain, sourceTests, sourceTests, isKeyword_perm t p q h,
    isComment_perm t p q h, hcls, hinh]

theorem classifyAll_perm (p q : Profile) (h : p.Perm q) (hp : uniqueKeys p) (ws : List Str) :
    classifyAll p ws = classifyAll q ws := by
  induction ws with
  | nil => rfl
  | cons w ws ih => simp only [classifyAll, getTokenType_perm w p q h hp, ih]

theorem translateComment_perm (v : Str) (T T' : Profile) (h : T.Perm T') (hT : uniqueKeys T) :
    translateComment v T = translateComment v T' := by
  have hat : ∀ k, mapAt T k = mapAt T' k := by
    intro k
    rw [mapAt, mapAt, mapFind_perm T T' h hT]
  unfold translateComment
  simp only [hat]

theorem emitLeaves_perm (T T' : Profile) (h : T.Perm T') (hT : uniqueKeys T)
    (ts : List Token) : emitLeaves T ts = emitLeaves T' ts := by
  induction ts with
  | nil => rfl
  | cons t ts ih => simp only [emitLeaves, translateComment_perm _ T T' h hT, ih]

theorem translateCodeInternal_perm (code : Str) (p q T T' : Profile) (h : p.Perm q)
    (hp : uniqueKeys p) (hT : T.Perm T') (hTk : uniqueKeys T) :
    translateCodeInternal code p T = translateCodeInternal code q T' := by
  rw [translateCodeInternal_eq, translateCodeInternal_eq, classifyAll_perm p q h hp]
  cases classifyAll q (lexemes code) with
  | error e => rfl
  | ok ts => exact emitLeaves_perm T T' hT hTk ts

/-! ## Lemmas on re-reading the emitted text -/

theorem extractLoop_run (w cur : Str) (hw : ∀ x ∈ w, isspace x = false)
    (hne : cur ≠ [] ∨ w ≠ []) : extractLoop w cur = [cur.reverse ++ w] := by
  induction w generalizing cur with
  | nil =>
    rcases hne with hne | hne
    · simp [extractLoop, hne]
    · exact absurd rfl hne
  | cons c w ih =>
    have hc : isspace c = false := hw c (by simp)
    simp only [extractLoop, hc, Bool.false_eq_true, if_false]
    rw [ih (c :: cur) (fun x hx => hw x (by simp [hx])) (Or.inl (by simp))]
    simp

theorem extractLoop_spaced (ws : List Str) (h : ∀ w ∈ ws, w ≠ [] ∧ ∀ x ∈ w, isspace x = false) :
    extractLoop (spaced ws) [] = ws := by
  induction ws with
  | nil => rfl
  | cons w ws ih =>
    have hcons : spaced (w :: ws) = w ++ ' ' :: spaced ws := by simp [spaced]
    have hw := h w (by simp)
    rw [hcons, extractLoop_append_space w (spaced ws) [] ' ' (by decide),
      extractLoop_run w [] hw.2 (Or.inr hw.1), ih (fun x hx => h x (by simp [hx]))]
    simp

/-- The lexemes of the emitted row of lexemes are the lexemes again. -/
theorem lexemes_spaced (code : Str) : lexemes (spaced (lexemes code)) = lexemes code := by
  have h1 : ∀ text, lexemes text = extractLoop text [] := by
    intro text
    rw [lexemes_eq_maximalRuns, extractLoop_eq_maximalRuns]
  rw [h1 (spaced (lexemes code))]
  apply extractLoop_spaced
  intro w hw
  rw [lexemes_eq_maximalRuns] at hw
  exact maximalRuns_mem code w hw

/-- Whenever a translation between built-in languages returns text, the text has
the lexemes of the code: every symbol occurs as often as before. -/
theorem translateCode_counts (code s t out symbol : Str) (hs : isBuiltin s) (ht : isBuiltin t)
    (h : (translateCode CodeTranslator code s t).1 = .ok out) :
    countLexeme symbol out = countLexeme symbol code := by
  obtain ⟨S, hS, hSb, _⟩ := mapFind_builtin s hs
  obtain ⟨T, hT, hTb, _⟩ := mapFind_builtin t ht
  rw [translateCode_builtin code s t S T hS hT hSb hTb] at h
  split at h
  · cases h
  · cases h
    rw [countLexeme, countLexeme, lexemes_spaced]

/-! ## Claims -/

/-- C1: `translateCode` returns the text "Unsupported language" whenever the
source name or the target name has no profile, or an empty profile, in the
registry; and when both names are among the registered non-empty profiles "cpp"
and "python" it never returns that text. -/
theorem translateCode_unsupported_language (r : Registry) (code s t : Str) :
    ((mapFind r s = none ∨ mapFind r s = some [] ∨ mapFind r t = none ∨ mapFind r t = some []) →
      (translateCode r code s t).1 = .ok "Unsupported language".toList) ∧
    (mapFind r "cpp".toList = some cppProfile →
      mapFind r "python".toList = some pythonProfile → isBuiltin s → isBuiltin t →
      (translateCode r code s t).1 ≠ .ok "Unsupported language".toList) := by
  constructor
  · intro h
    rw [translateCode_fst]
    rcases h with h | h | h | h <;> simp [h]
  · intro hcpp hpy hs ht hres
    have hT : ∀ v, translateComment v ((mapFind r t).getD []) = .error .out_of_range := by
      rcases ht with ht | ht
      · subst ht; rw [hcpp]; exact translateComment_cpp
      · subst ht; rw [hpy]; exact translateComment_python
    have hne : (((mapFind r s).getD []).isEmpty || ((mapFind r t).getD []).isEmpty) = false := by
      rcases hs with hs | hs <;> rcases ht with ht | ht <;> subst hs <;> subst ht <;>
        simp only [hcpp, hpy] <;> rfl
    rw [translateCode_fst, hne, translateCodeInternal_eq] at hres
    simp only [Bool.false_eq_true, if_false] at hres
    cases hc : classifyAll ((mapFind r s).getD []) (lexemes code) with
    | error e => rw [hc] at hres; cases hres
    | ok ts =>
      rw [hc] at hres
      have hout := (emitLeaves_ok _ hT ts _ hres).1
      rcases spaced_getLast (ts.map Token.value) with hl | hl
      · rw [← hout] at hl; cases hl
      · rw [← hout] at hl; revert hl; decide

/-- C1 at the constructor's registry: an unregistered source gives the text, and
cpp to python does not. -/
theorem translateCode_unsupported_language_witness :
    (translateCode CodeTranslator "x".toList "missing".toList "cpp".toList).1 =
        .ok "Unsupported language".toList ∧
      (translateCode CodeTranslator "x".toList "cpp".toList "python".toList).1 ≠
        .ok "Unsupported language".toList :=
  ⟨(translateCode_unsupported_language CodeTranslator "x".toList "missing".toList
      "cpp".toList).1 (Or.inl (by decide)),
    (translateCode_unsupported_language CodeTranslator "x".toList "cpp".toList
      "python".toList).2 (by decide) (by decide) (Or.inl rfl) (Or.inr rfl)⟩

/-- C2, as stated, fails: after translating from the unregistered name
"missing" the registry holds a name it did not hold before. -/
theorem translateCode_registry_grows :
    ((translateCode CodeTranslator "x".toList "missing".toList "cpp".toList).2).map Prod.fst ≠
      CodeTranslator.map Prod.fst := by
  decide

/-- C2, amended: after `translateCode` every name registered before the call has
the role table it had, and a name that was not registered is registered after
the call exactly when it is the source or the target name, with an empty role
table. -/
theorem translateCode_registry_lookup (r : Registry) (code s t n : Str) :
    mapFind (translateCode r code s t).2 n =
      match mapFind r n with
      | some p => some p
      | none => if n = s ∨ n = t then some [] else none := by
  rw [translateCode_snd, mapFind_mapIndex, mapFind_mapIndex]
  cases mapFind r n with
  | some p => rfl
  | none =>
    by_cases hs : n = s
    · simp [hs]
    · by_cases ht : n = t
      · subst ht
        simp [hs]
      · simp [hs, ht]

/-- C3, the code at the failing input: the inheritance lexeme is classified
`KEYWORD` and comes out unchanged, in both directions. -/
theorem translateCode_inheritance_unchanged :
    (translateCode CodeTranslator "class D : B".toList "cpp".toList "python".toList).1 =
        .ok "class D : B ".toList ∧
      (translateCode CodeTranslator "class D ( B".toList "python".toList "cpp".toList).1 =
        .ok "class D ( B ".toList := by
  decide

/-- C4, the code at the failing input: the comment marker is classified
`KEYWORD` and the comment comes out in the source syntax. -/
theorem translateCode_comment_unchanged :
    (translateCode CodeTranslator "# hello".toList "python".toList "cpp".toList).1 =
        .ok "# hello ".toList ∧
      (translateCode CodeTranslator "// hello".toList "cpp".toList "python".toList).1 =
        .ok "// hello ".toList := by
  decide

/-- C5, the code at the failing input: the lone `}` and the lone `{` under cpp
are classified `KEYWORD`, pass `buildAST` as ordinary leaves and come back as
output text; no failure for unbalanced structure is raised. -/
theorem translateCode_lone_brace :
    (translateCode CodeTranslator "\x7d".toList "cpp".toList "python".toList).1 =
        .ok "\x7d ".toList ∧
      (translateCode CodeTranslator "\x7b".toList "cpp".toList "python".toList).1 =
        .ok "\x7b ".toList := by
  decide

/-- C6, the code at the failing input: for "a { b } c" under cpp the braces are
classified `KEYWORD` and the tree is flat, five leaves under the root. -/
theorem buildAST_braces_flat :
    (tokenize "a \x7b b \x7d c".toList cppProfile >>= buildAST) =
      .ok (.mk (.text []) []
        [ .mk (.kind .IDENTIFIER) "a".toList [],
          .mk (.kind .KEYWORD) "\x7b".toList [],
          .mk (.kind .IDENTIFIER) "b".toList [],
          .mk (.kind .KEYWORD) "\x7d".toList [],
          .mk (.kind .IDENTIFIER) "c".toList [] ]) := by
  rfl

/-- C7, the code at the failing input: the lexeme `@` is classified `COMMENT`
under cpp, and `translateComment` looks up the role `comment_start`, which
neither built-in profile defines. -/
theorem translateCode_missing_role :
    (translateCode CodeTranslator "@".toList "cpp".toList "python".toList).1 =
        .error .out_of_range ∧
      mapFind cppProfile "comment_start".toList = none ∧
      mapFind pythonProfile "comment_start".toList = none := by
  decide

/-- C8: the token texts produced by `tokenize` are the maximal runs of
non-whitespace characters of the whole text in reading order: whenever
`tokenize` returns (and it does when the profile defines `inheritance`) nothing
is dropped or added; no run is empty or contains whitespace; the runs
concatenated are the text without its whitespace; whitespace-only (in
particular empty) text gives the empty sequence. -/
theorem tokenize_whitespace_split (text : Str) (p : Profile) :
    (∀ ts, tokenize text p = .ok ts → ts.map Token.value = maximalRuns text) ∧
    (definesRole p "inheritance".toList →
      ∃ ts, tokenize text p = .ok ts ∧ ts.map Token.value = maximalRuns text) ∧
    (∀ w ∈ maximalRuns text, w ≠ [] ∧ ∀ c ∈ w, isspace c = false) ∧
    (maximalRuns text).flatten = text.filter (fun c => !isspace c) ∧
    (text.all isspace = true → tokenize text p = .ok []) := by
  have hA : ∀ ts, tokenize text p = .ok ts → ts.map Token.value = maximalRuns text := by
    intro ts h
    rw [tokenize_eq, lexemes_eq_maximalRuns] at h
    exact classifyAll_values p _ ts
      (fun w hw => isWhitespace_false_of_run w (maximalRuns_mem text w hw)) h
  have hJ : (maximalRuns text).flatten = text.filter (fun c => !isspace c) := by
    rw [← extractLoop_eq_maximalRuns, extractLoop_join]
    rfl
  refine ⟨hA, ?_, maximalRuns_mem text, hJ, ?_⟩
  · intro hp
    obtain ⟨ts, hts⟩ := classifyAll_returns p (lexemes text) hp
    rw [← tokenize_eq] at hts
    exact ⟨ts, hts, hA ts hts⟩
  · intro hall
    have hnil : maximalRuns text = [] := by
      cases hm : maximalRuns text with
      | nil => rfl
      | cons w ws =>
        exfalso
        have hw := maximalRuns_mem text w (by rw [hm]; simp)
        have hf : text.filter (fun c => !isspace c) = [] := by
          rw [List.filter_eq_nil_iff]
          intro c hc
          have := List.all_eq_true.mp hall c hc
          simp [this]
        rw [hm, hf] at hJ
        cases w with
        | nil => exact hw.1 rfl
        | cons c cs => simp at hJ
    rw [tokenize_eq, lexemes_eq_maximalRuns, hnil]
    rfl

/-- C8 at the text "a  b\n c" under the cpp profile. -/
theorem tokenize_whitespace_split_witness :
    (∃ ts, tokenize "a  b\n c".toList cppProfile = .ok ts ∧
        ts.map Token.value = maximalRuns "a  b\n c".toList) ∧
      tokenize "  \n ".toList cppProfile = .ok [] :=
  ⟨(tokenize_whitespace_split "a  b\n c".toList cppProfile).2.1 ⟨":".toList, by decide⟩,
    (tokenize_whitespace_split "  \n ".toList cppProfile).2.2.2.2 (by decide)⟩

/-- C9: `getTokenType` is first-match-wins over the priority order Keyword,
Identifier, Operator, Delimiter, Literal, Comment, Whitespace, BlockStart,
BlockEnd, FunctionStart, FunctionEnd, ClassDecl, Inheritance, with Unknown when
none holds: it returns that kind whenever it returns, it does return it when
the profile defines `inheritance`, and a lexeme equal to a role value is
classified Keyword. -/
theorem getTokenType_first_match (t : Str) (p : Profile) :
    (∀ k, getTokenType t p = .ok k → k = firstMatch (priorityOrder t p)) ∧
    (definesRole p "inheritance".toList →
      getTokenType t p = .ok (firstMatch (priorityOrder t p))) ∧
    (t ∈ p.map Prod.snd → getTokenType t p = .ok .KEYWORD) := by
  refine ⟨getTokenType_ok_eq t p, ?_, ?_⟩
  · intro hp
    obtain ⟨k, hk⟩ := getTokenType_returns t p hp
    rw [hk, getTokenType_ok_eq t p k hk]
  · intro hmem
    have hk := (isKeyword_iff t p).mpr hmem
    unfold getTokenType
    rw [if_pos hk]

/-- C9 at the lexemes `def` under python (a role value) and `x1` under cpp. -/
theorem getTokenType_first_match_witness :
    getTokenType "def".toList pythonProfile = .ok .KEYWORD ∧
      getTokenType "x1".toList cppProfile =
        .ok (firstMatch (priorityOrder "x1".toList cppProfile)) :=
  ⟨(getTokenType_first_match "def".toList pythonProfile).2.2 (by decide),
    (getTokenType_first_match "x1".toList cppProfile).2.1 ⟨":".toList, by decide⟩⟩

/-- C10: for every lexeme, the empty string included, and every profile that
defines the `inheritance` role, `getTokenType` returns exactly one kind and
does not fail; a lexeme that satisfies none of the predicates is classified
`UNKNOWN`. -/
theorem getTokenType_never_fails (t : Str) (p : Profile)
    (hp : definesRole p "inheritance".toList) :
    (∃! k, getTokenType t p = .ok k) ∧
    ((∀ e ∈ sourceTests t p, e.1 = false) → isInheritance t p = .ok false →
      getTokenType t p = .ok .UNKNOWN) := by
  constructor
  · obtain ⟨k, hk⟩ := getTokenType_returns t p hp
    refine ⟨k, hk, ?_⟩
    intro k' hk'
    rw [hk] at hk'
    exact (Except.ok.inj hk').symm
  · intro hall hinh
    have hnone : ∀ l : List (Bool × TokenType), (∀ e ∈ l, e.1 = false) → firstSome l = none := by
      intro l
      induction l with
      | nil => intro _; rfl
      | cons e l ih =>
        intro hl
        obtain ⟨b, k⟩ := e
        have hb : b = false := hl (b, k) (by simp)
        subst hb
        simpa [firstSome] using ih (fun x hx => hl x (by simp [hx]))
    rw [getTokenType_chain, hnone _ hall, hinh]

/-- C10 at the empty lexeme and at the lexeme `@` under a profile whose only
role is `inheritance`. -/
theorem getTokenType_never_fails_witness :
    (∃! k, getTokenType [] cppProfile = .ok k) ∧
      getTokenType "@".toList [("inheritance".toList, ":".toList)] = .ok .UNKNOWN :=
  ⟨(getTokenType_never_fails [] cppProfile ⟨":".toList, by decide⟩).1,
    (getTokenType_never_fails "@".toList [("inheritance".toList, ":".toList)]
      ⟨":".toList, by decide⟩).2 (by decide) (by decide)⟩

/-- C11, the code at the failing input: translating the cpp text `{ //x }` to
cpp throws `std::out_of_range` instead of returning a text with one `{`, one
`}` and the comment. -/
theorem translateCode_same_language_throws :
    (translateCode CodeTranslator "\x7b //x \x7d".toList "cpp".toList "cpp".toList).1 =
        .error .out_of_range ∧
      countLexeme "\x7b".toList "\x7b //x \x7d".toList = 1 ∧
      countLexeme "\x7d".toList "\x7b //x \x7d".toList = 1 := by
  decide

/-- C12, the code at the failing input: translating `// x` from cpp to python
returns `// x `, and translating that text back from python to cpp throws
`std::out_of_range`, so the round trip produces no text to tokenize. -/
theorem roundTrip_throws :
    (translateCode CodeTranslator "// x".toList "cpp".toList "python".toList).1 =
        .ok "// x ".toList ∧
      (roundTrip CodeTranslator "// x".toList "cpp".toList "python".toList).1 =
        .error .out_of_range ∧
      tokenize "// x".toList cppProfile =
        .ok [⟨.KEYWORD, "//".toList⟩, ⟨.IDENTIFIER, "x".toList⟩] := by
  decide

/-- C13, the code at the failing input: for the cpp text `{ a }` the brace is
classified `KEYWORD`, the tree holds no `START_BLOCK` node (three leaves under
the root), and the python translation is `{ a } `, not python's `start_block`
symbol `:`, a line break, the emission of `a` and python's (empty) `end_block`
symbol. -/
theorem translateCode_block_not_emitted :
    (tokenize "\x7b a \x7d".toList cppProfile >>= buildAST) =
        .ok (.mk (.text []) []
          [ .mk (.kind .KEYWORD) "\x7b".toList [],
            .mk (.kind .IDENTIFIER) "a".toList [],
            .mk (.kind .KEYWORD) "\x7d".toList [] ]) ∧
      (translateCode CodeTranslator "\x7b a \x7d".toList "cpp".toList "python".toList).1 =
        .ok "\x7b a \x7d ".toList ∧
      (translateCode CodeTranslator "\x7b a \x7d".toList "cpp".toList "python".toList).1 ≠
        .ok (":".toList ++ "\n".toList ++ "a ".toList ++ "".toList) :=
  ⟨rfl, by decide, by decide⟩

/-- C15: `translateAST` returns the concatenation, in child order, of one piece
per child; for a root whose children are leaves that are neither comments nor
of a scope kind, a leaf of kind `INHERITANCE` contributes the target's
`inheritance` symbol and a space, and every other leaf (Keyword, Identifier,
Operator, Delimiter, Literal, Unknown, Whitespace) contributes its own text
unchanged and a single space. -/
theorem translateAST_leaves (T : Profile) (type : NodeType) (value : Str) :
    (∀ (children : List ASTNode) (out : Str),
      translateAST (.mk type value children) T = .ok out ↔
        ∃ pieces, List.Forall₂ (fun n piece => translateNode n T = .ok piece) children pieces ∧
          out = pieces.flatten) ∧
    (∀ (tokens : List Token) (symbol : Str),
      (∀ t ∈ tokens, t.type ≠ .COMMENT ∧ isScopeKind t.type = false) →
      (∀ t ∈ tokens, t.type = .INHERITANCE → mapFind T "inheritance".toList = some symbol) →
      translateAST (.mk type value (tokens.map leaf)) T =
        .ok (tokens.flatMap (leafPiece symbol))) := by
  constructor
  · intro children out
    exact translateNodes_pieces children T out
  · intro tokens symbol hk hinh
    rw [translateAST, ASTNode.children]
    induction tokens with
    | nil => rw [List.map_nil, translateNodes]; rfl
    | cons t ts ih =>
      rw [List.map_cons, translateNodes_cons,
        translateNode_leafPiece T t symbol (hk t (by simp)) (hinh t (by simp)),
        ih (fun x hx => hk x (by simp [hx])) (fun x hx => hinh x (by simp [hx]))]
      simp

/-- C15 at the python target and the leaves `D` (Identifier), `:` (Inheritance),
`B` (Identifier): the text is `D ( B `. -/
theorem translateAST_leaves_witness :
    translateAST
        (.mk (.text []) []
          ([⟨.IDENTIFIER, "D".toList⟩, ⟨.INHERITANCE, ":".toList⟩,
            ⟨.IDENTIFIER, "B".toList⟩].map leaf))
        pythonProfile =
      .ok ([⟨.IDENTIFIER, "D".toList⟩, ⟨.INHERITANCE, ":".toList⟩,
        ⟨.IDENTIFIER, "B".toList⟩].flatMap (leafPiece "(".toList)) :=
  (translateAST_leaves pythonProfile (.text []) []).2
    [⟨.IDENTIFIER, "D".toList⟩, ⟨.INHERITANCE, ":".toList⟩, ⟨.IDENTIFIER, "B".toList⟩]
    "(".toList (by decide) (by decide)

/-- C16, the code at the failing input: under the cpp profile `isComment` holds
for the lexeme `@`, which starts with none of the three comment markers (the
empty symbol of the role `function` is a prefix of every lexeme); it holds for
`//x` as claimed. -/
theorem isComment_not_restricted :
    isComment "@".toList cppProfile = true ∧ specComment "@".toList cppProfile = false ∧
      isComment "//x".toList cppProfile = true ∧ specComment "//x".toList cppProfile = true := by
  decide

/-- C17: for every lexeme and source profile `getTokenType` never returns
`START_BLOCK`, `END_BLOCK`, `START_FUNCTION`, `END_FUNCTION`, `CLASS` or
`INHERITANCE`; under either built-in profile it returns a kind that is neither
`WHITESPACE` nor `UNKNOWN`, every lexeme passing the Comment test; and the tree
built from the output of `tokenize` is flat: a root whose children are the
tokens, in order, all leaves. -/
theorem getTokenType_unreachable_kinds :
    (∀ (t : Str) (p : Profile) (k : TokenType), getTokenType t p = .ok k →
      k ≠ .START_BLOCK ∧ k ≠ .END_BLOCK ∧ k ≠ .START_FUNCTION ∧ k ≠ .END_FUNCTION ∧
        k ≠ .CLASS ∧ k ≠ .INHERITANCE) ∧
    (∀ (t : Str) (p : Profile), p = cppProfile ∨ p = pythonProfile →
      isComment t p = true ∧
        ∃ k, getTokenType t p = .ok k ∧ k ≠ .WHITESPACE ∧ k ≠ .UNKNOWN) ∧
    (∀ (code : Str) (p : Profile) (tokens : List Token), tokenize code p = .ok tokens →
      buildAST tokens = .ok (.mk (.text []) [] (tokens.map leaf))) := by
  refine ⟨?_, ?_, ?_⟩
  · intro t p k h
    obtain ⟨h1, h2⟩ := getTokenType_not_scope t p k h
    refine ⟨?_, ?_, ?_, ?_, ?_, h2⟩ <;> (intro hk; subst hk; revert h1; decide)
  · intro t p hp
    exact ⟨isComment_builtin t p hp, getTokenType_of_comment t p (isComment_builtin t p hp)⟩
  · intro code p tokens h
    rw [tokenize_eq] at h
    exact buildAST_flat tokens (fun t ht => (classifyAll_kinds p _ tokens h t ht).1)

/-- C17 at the lexeme `(` and the text `f ( x )` under the cpp profile. -/
theorem getTokenType_unreachable_kinds_witness :
    (.DELIMITER ≠ TokenType.START_BLOCK ∧ .DELIMITER ≠ TokenType.END_BLOCK ∧
        .DELIMITER ≠ TokenType.START_FUNCTION ∧ .DELIMITER ≠ TokenType.END_FUNCTION ∧
        .DELIMITER ≠ TokenType.CLASS ∧ .DELIMITER ≠ TokenType.INHERITANCE) ∧
      (isComment "@".toList cppProfile = true ∧
        ∃ k, getTokenType "@".toList cppProfile = .ok k ∧ k ≠ .WHITESPACE ∧ k ≠ .UNKNOWN) ∧
      buildAST
          [⟨.IDENTIFIER, "f".toList⟩, ⟨.DELIMITER, "(".toList⟩, ⟨.IDENTIFIER, "x".toList⟩,
            ⟨.DELIMITER, ")".toList⟩] =
        .ok (.mk (.text []) []
          ([⟨.IDENTIFIER, "f".toList⟩, ⟨.DELIMITER, "(".toList⟩, ⟨.IDENTIFIER, "x".toList⟩,
            ⟨.DELIMITER, ")".toList⟩].map leaf)) :=
  ⟨getTokenType_unreachable_kinds.1 "(".toList cppProfile .DELIMITER (by decide),
    getTokenType_unreachable_kinds.2.1 "@".toList cppProfile (Or.inl rfl),
    getTokenType_unreachable_kinds.2.2 "f ( x )".toList cppProfile _ (by decide)⟩

/-- C18: for built-in source and target languages `translateCode` returns text
if and only if no lexeme of the code is classified `COMMENT` under the source
profile; the text is then the lexemes in order, each followed by a single
space, and it is the same for the targets "cpp" and "python". -/
theorem translateCode_identity_up_to_whitespace (code s t : Str) (S : Profile)
    (hs : isBuiltin s) (ht : isBuiltin t) (hS : mapFind CodeTranslator s = some S) :
    ((∃ out, (translateCode CodeTranslator code s t).1 = .ok out) ↔
      ∀ w ∈ lexemes code, getTokenType w S ≠ .ok .COMMENT) ∧
    ((∀ w ∈ lexemes code, getTokenType w S ≠ .ok .COMMENT) →
      (translateCode CodeTranslator code s t).1 = .ok (spaced (lexemes code)) ∧
      (translateCode CodeTranslator code s "cpp".toList).1 =
        (translateCode CodeTranslator code s "python".toList).1) := by
  obtain ⟨S', hS', hSb, _⟩ := mapFind_builtin s hs
  rw [hS] at hS'
  cases hS'
  obtain ⟨T, hT, hTb, _⟩ := mapFind_builtin t ht
  have hiff : (∃ w ∈ lexemes code, kindOf S w = .COMMENT) ↔
      ¬ ∀ w ∈ lexemes code, getTokenType w S ≠ .ok .COMMENT := by
    constructor
    · rintro ⟨w, hw, hk⟩ hall
      apply hall w hw
      rw [(getTokenType_kindOf w S hSb).1, hk]
    · intro hn
      by_contra hex
      apply hn
      intro w hw hg
      apply hex
      refine ⟨w, hw, ?_⟩
      rw [kindOf, hg]
  have hres := fun (t' : Str) (T' : Profile) (h1 : mapFind CodeTranslator t' = some T')
      (h2 : T' = cppProfile ∨ T' = pythonProfile) =>
    translateCode_builtin code s t' S T' hS h1 hSb h2
  constructor
  · rw [hres t T hT hTb]
    constructor
    · rintro ⟨out, hout⟩
      by_contra hn
      rw [if_pos (hiff.mpr hn)] at hout
      cases hout
    · intro hall
      rw [if_neg (fun hex => hiff.mp hex hall)]
      exact ⟨_, rfl⟩
  · intro hall
    have hno : ¬ ∃ w ∈ lexemes code, kindOf S w = .COMMENT := fun hex => hiff.mp hex hall
    constructor
    · rw [hres t T hT hTb, if_neg hno]
    · rw [hres "cpp".toList cppProfile (by decide) (Or.inl rfl),
        hres "python".toList pythonProfile (by decide) (Or.inr rfl)]

/-- C18 at the code `class D : B` from cpp to python. -/
theorem translateCode_identity_up_to_whitespace_witness :
    (translateCode CodeTranslator "class D : B".toList "cpp".toList "python".toList).1 =
        .ok (spaced (lexemes "class D : B".toList)) ∧
      (translateCode CodeTranslator "class D : B".toList "cpp".toList "cpp".toList).1 =
        (translateCode CodeTranslator "class D : B".toList "cpp".toList "python".toList).1 :=
  (translateCode_identity_up_to_whitespace "class D : B".toList "cpp".toList "python".toList
    cppProfile (Or.inl rfl) (Or.inr rfl) (by decide)).2 (by decide)

/-- C19: for two profiles with the same entries listed in different orders (keys
pairwise different, as in a hash map) `getTokenType` returns the same kind for
every lexeme, and `translateCode` gives the same outcome for every code when the
source profiles, and likewise the target profiles, differ only in the order of
their entries. -/
theorem getTokenType_order_independent (p q T T' : Profile) (hpq : p.Perm q)
    (hp : uniqueKeys p) (hT : T.Perm T') (hTk : uniqueKeys T) :
    (∀ t, getTokenType t p = getTokenType t q) ∧
    (∀ code, translateCodeInternal code p T = translateCodeInternal code q T') ∧
    (∀ (r r' : Registry) (code s t : Str), mapFind r s = some p → mapFind r' s = some q →
      mapFind r t = some T → mapFind r' t = some T' →
      (translateCode r code s t).1 = (translateCode r' code s t).1) := by
  refine ⟨fun t => getTokenType_perm t p q hpq hp,
    fun code => translateCodeInternal_perm code p q T T' hpq hp hT hTk, ?_⟩
  intro r r' code s t h1 h2 h3 h4
  have he1 : p.isEmpty = q.isEmpty := by
    rw [Bool.eq_iff_iff, List.isEmpty_iff, List.isEmpty_iff]
    exact ⟨fun h => by subst h; exact hpq.nil_eq.symm, fun h => by subst h; exact hpq.eq_nil⟩
  have he2 : T.isEmpty = T'.isEmpty := by
    rw [Bool.eq_iff_iff, List.isEmpty_iff, List.isEmpty_iff]
    exact ⟨fun h => by subst h; exact hT.nil_eq.symm, fun h => by subst h; exact hT.eq_nil⟩
  rw [translateCode_fst, translateCode_fst, h1, h2, h3, h4]
  simp only [Option.getD_some]
  rw [he1, he2, translateCodeInternal_perm code p q T T' hpq hp hT hTk]

/-- C19 at the lexeme `:` and a two-role profile listed in both orders. -/
theorem getTokenType_order_independent_witness :
    getTokenType ":".toList
        [("inheritance".toList, ":".toList), ("class".toList, "class".toList)] =
      getTokenType ":".toList
        [("class".toList, "class".toList), ("inheritance".toList, ":".toList)] :=
  (getTokenType_order_independent
    [("inheritance".toList, ":".toList), ("class".toList, "class".toList)]
    [("class".toList, "class".toList), ("inheritance".toList, ":".toList)]
    cppProfile cppProfile (List.Perm.swap _ _ _) (by unfold uniqueKeys; decide)
    (List.Perm.refl _) (by unfold uniqueKeys; decide)).1 ":".toList

end Translator
